import Mathlib

/-
  Verification of the gactions chunked file-synchronization subsystem.

  This file shallowly embeds the relevant parts of the Go sources:
    * project/studio.go   — file classification predicates,
    * api/sdk.go          — the SDK streamer (chunk planner), the request
                            payload builders, the upload framing loop,
                            the download decoder's seen-set accounting and
                            the reconciliation helper findExtra.

  Go `string` values are Lean `String`s; byte positions coincide with
  character positions for the ASCII paths handled here.  Go maps are
  embedded as association lists (`List (String × _)`), whose key set and
  lookup behaviour model the map; iteration order of a Go map is
  unspecified, so list order stands in for one arbitrary iteration order.
  Go machine integers hold byte counts (always non-negative and far below
  2^63 here), so they are embedded as `Nat`.
-/

namespace Gactions

/-! ## Go standard-library string/path primitives used by the code -/

/-- Go `strings.HasPrefix(s, pre)`. -/
def startsWithStr (s pre : String) : Bool :=
  pre.data.isPrefixOf s.data

/-- Helper for `pathExt`: scan the reversed character list of a path,
accumulating the characters seen so far, until a '.' or '/' is found.
This mirrors Go `path.Ext`'s backwards scan. -/
def pathExtAux : List Char → List Char → String
  | [], _ => ""
  | c :: rest, acc =>
    if c = '/' then ""
    else if c = '.' then String.mk ('.' :: acc)
    else pathExtAux rest (c :: acc)

/-- Go `path.Ext(p)`: the suffix beginning at the final dot in the final
slash-separated element of the path; empty if there is no dot. -/
def pathExt (p : String) : String :=
  pathExtAux p.data.reverse []

/-- Go `path.Base(p)`: the last element of the path, after stripping
trailing slashes; "." for the empty string, "/" if the path is all slashes. -/
def pathBase (p : String) : String :=
  if p = "" then "."
  else
    let rev := p.data.reverse.dropWhile (· = '/')
    if rev = [] then "/"
    else String.mk (rev.takeWhile (· ≠ '/')).reverse

/-! ## File classification predicates (project/studio.go)

Go's `path.Join("custom", "intents")` etc. evaluate to the literal
forward-slash joined strings used below. -/

/-- studio.go `IsManifest`. -/
def IsManifest (filename : String) : Bool :=
  decide (pathBase filename = "manifest.yaml")

/-- studio.go `IsSettings`. -/
def IsSettings (filename : String) : Bool :=
  decide (pathBase filename = "settings.yaml")

/-- studio.go `IsActions`. -/
def IsActions (filename : String) : Bool :=
  decide (pathBase filename = "actions.yaml")

/-- studio.go `IsIntent`. -/
def IsIntent (filename : String) : Bool :=
  startsWithStr filename "custom/intents" && decide (pathExt filename = ".yaml")

/-- studio.go `IsGlobal`. -/
def IsGlobal (filename : String) : Bool :=
  startsWithStr filename "custom/global" && decide (pathExt filename = ".yaml")

/-- studio.go `IsScene`. -/
def IsScene (filename : String) : Bool :=
  startsWithStr filename "custom/scenes" && decide (pathExt filename = ".yaml")

/-- studio.go `IsType`. -/
def IsType (filename : String) : Bool :=
  startsWithStr filename "custom/types" && decide (pathExt filename = ".yaml")

/-- studio.go `IsWebhook`. -/
def IsWebhook (filename : String) : Bool :=
  startsWithStr filename "webhooks"

/-- studio.go `IsWebhookDefinition`. -/
def IsWebhookDefinition (filename : String) : Bool :=
  IsWebhook filename && decide (pathExt filename = ".yaml")

/-- studio.go `IsVertical`. -/
def IsVertical (filename : String) : Bool :=
  startsWithStr filename "verticals" && decide (pathExt filename = ".yaml")

/-- studio.go `IsPrompt`. -/
def IsPrompt (filename : String) : Bool :=
  startsWithStr filename "custom/prompts" && decide (pathExt filename = ".yaml")

/-- studio.go `IsResourceBundle`. -/
def IsResourceBundle (filename : String) : Bool :=
  startsWithStr filename "resources/strings" && decide (pathExt filename = ".yaml")

/-- studio.go `IsAccountLinkingSecret`.  Note: the Go code tests
`strings.HasPrefix(filename, path.Join("settings", "accountLinkingSecret.yaml"))`. -/
def IsAccountLinkingSecret (filename : String) : Bool :=
  startsWithStr filename "settings/accountLinkingSecret.yaml"

/-- studio.go `isConfigFile` (same disjunct order as the source). -/
def isConfigFile (filename : String) : Bool :=
  IsVertical filename ||
  IsManifest filename ||
  IsSettings filename ||
  IsActions filename ||
  IsIntent filename ||
  IsGlobal filename ||
  IsScene filename ||
  IsType filename ||
  IsWebhookDefinition filename ||
  IsResourceBundle filename ||
  IsPrompt filename ||
  IsAccountLinkingSecret filename

/-! ## Config-file wire-field classification (api/sdk.go `addConfigFiles`)

The `switch` in `addConfigFiles` assigns each config file to exactly one
wire field; the `default` arm yields the "failed to add ... to a request"
error.  `configWireKey` returns the wire field of the first matching case
(cases in source order), or `none` for the default arm. -/

def configWireKey (filename : String) : Option String :=
  if IsAccountLinkingSecret filename then some "accountLinkingSecret"
  else if IsManifest filename then some "manifest"
  else if IsSettings filename then some "settings"
  else if IsActions filename then some "actions"
  else if IsWebhookDefinition filename then some "webhook"
  else if IsIntent filename then some "intent"
  else if IsGlobal filename then some "globalIntentEvent"
  else if IsType filename then some "type"
  else if IsPrompt filename then some "staticPrompt"
  else if IsScene filename then some "scene"
  else if IsVertical filename then some "verticalSettings"
  else if IsResourceBundle filename then some "resourceBundle"
  else none

/-! ## Reconciliation helper (api/sdk.go `findExtra`)

The Go function takes the local-file map `a : map[string][]byte` and the
seen map `b : map[string]bool`; only key sets are consulted (`b`'s stored
booleans are never read), so `b` is embedded by its key list. -/

/-- api/sdk.go `findExtra`: build the union `u` of both key sets, then
keep the keys of `u` absent from `b`. -/
def findExtra {β : Type} (a : List (String × β)) (b : List String) : List String :=
  let u := ((a.map Prod.fst) ++ b).dedup
  u.filter (fun k => decide (k ∉ b))

/-! ## The SDK streamer (api/sdk.go, package request) -/

/-- Length of Go `base64.StdEncoding.EncodeToString(v)` when `len(v) = n`:
standard base64 emits four output bytes per three input bytes, padded. -/
def base64Len (n : Nat) : Nat := 4 * ((n + 2) / 3)

/-- Go map read `m[name]` on a `map[string]int`, with the zero value `0`
for a missing key; the association list holds the later-inserted entries
first, so the first match is the surviving one. -/
def lookupSize (sizes : List (String × Nat)) (name : String) : Nat :=
  match sizes with
  | [] => 0
  | (k, v) :: rest => if k = name then v else lookupSize rest name

/-- One Go parallel-assignment swap `a[i], a[ps[i]] = a[ps[i]], a[i]`. -/
def listSwap (a : List String) (i j : Nat) : List String :=
  (a.set i (a.getD j "")).set j (a.getD i "")

/-- The loop of api/sdk.go `moveToFront`, having already processed the
first `i` positions: swap `a[i]` with `a[p]` for each listed position. -/
def moveToFrontAux : List String → List Nat → Nat → List String
  | a, [], _ => a
  | a, p :: ps, i => moveToFrontAux (listSwap a i p) ps (i + 1)

/-- api/sdk.go `moveToFront(a, ps)`. -/
def moveToFront (a : List String) (ps : List Nat) : List String :=
  moveToFrontAux a ps 0

/-- The index list built by `sortConfigFiles`' first loop: the positions
in `cfgnames` holding settings or manifest files, in increasing order. -/
def settingsManifestPos (cfgnames : List String) : List Nat :=
  (cfgnames.enum.filter (fun iv => IsSettings iv.2 || IsManifest iv.2)).map Prod.fst

/-- api/sdk.go `sortConfigFiles`: move the settings/manifest files to the
front, then sort the remainder ascending by estimated size.  Go's
`sort.Slice` is an arbitrary (possibly unstable) sorting algorithm, so any
sorted permutation of the tail satisfies it; `List.insertionSort` is one
such algorithm. -/
def sortConfigFiles (cfgnames : List String) (sizes : List (String × Nat)) : List String :=
  let pos := settingsManifestPos cfgnames
  let moved := moveToFrontAux cfgnames pos 0
  moved.take pos.length ++
    (moved.drop pos.length).insertionSort
      (fun x y => lookupSize sizes x ≤ lookupSize sizes y)

/-- api/sdk.go `SDKStreamer`.  File contents influence planning only
through the size map, so the `files` map and the `makeRequest`/`root`
fields are not carried; `filesCount` records `len(s.files)`, the number of
distinct file names. -/
structure SDKStreamer where
  sizes : List (String × Nat)
  configFilenames : List String
  dataFilenames : List String
  filesCount : Nat
  i : Nat
  j : Nat
  chunkSize : Nat
deriving DecidableEq

/-- api/sdk.go `NewStreamer`.  `configFiles` and `dataFiles` list each
file's name with its content's byte length, in one iteration order of the
Go maps; contents enter planning only through these lengths.  In the Go
size map, config sizes (raw length) are inserted first and data sizes
(base64-encoded length) second, so on a name collision the data entry
wins — hence the data entries come first in the association list. -/
def NewStreamer (configFiles dataFiles : List (String × Nat)) (chunkSize : Nat) : SDKStreamer :=
  let cfgnames := configFiles.map Prod.fst
  let dfnames := dataFiles.map Prod.fst
  let sizes := dataFiles.map (fun kv => (kv.1, base64Len kv.2)) ++ configFiles
  { sizes := sizes
    configFilenames := sortConfigFiles cfgnames sizes
    dataFilenames := dfnames.insertionSort (fun x y => lookupSize sizes x ≤ lookupSize sizes y)
    filesCount := (cfgnames ++ dfnames).dedup.length
    i := 0
    j := 0
    chunkSize := chunkSize }

/-- The loop of api/sdk.go `nextChunk`, scanning the name list from the
cursor with running total `curSize`: stop at the end of the list, when
`curSize` has reached the budget, or — without including the file — when
including the next file would push `curSize` beyond the budget. -/
def nextChunkAux (sizes : List (String × Nat)) (chunkSize : Nat) :
    List String → Nat → List String
  | [], _ => []
  | name :: rest, curSize =>
    if curSize < chunkSize then
      if curSize + lookupSize sizes name > chunkSize then []
      else name :: nextChunkAux sizes chunkSize rest (curSize + lookupSize sizes name)
    else []

/-- api/sdk.go `(s *SDKStreamer).nextChunk(a, next)`: the planned chunk,
as its list of file names in scan order (the Go map holds them unordered;
only membership and count are consumed downstream). -/
def SDKStreamer.nextChunk (s : SDKStreamer) (a : List String) (next : Nat) : List String :=
  nextChunkAux s.sizes s.chunkSize (a.drop next) 0

deriving instance DecidableEq for Except

/-- The errors surfaced by the streamer, by `fmt.Errorf` shape. -/
inductive StreamErr where
  | exceedsLimit (filename : String) (limit : Nat)
  | badSyntax (filename : String)
  | failedToAdd (filename : String)
deriving DecidableEq

/-- The `files` field of a request: exactly one of a config-file batch
(filePath paired with its wire field) or a data-file batch (filePath
paired with its content type). -/
inductive FilesPayload where
  | configFiles (cfgs : List (String × String))
  | dataFiles (dfs : List (String × String))
deriving DecidableEq

/-- A request as built from `makeRequest()`: the caller's template fields
plus an optional `files` field (absent when no data file survived
filtering, or when no file phase ran). -/
structure Request where
  files : Option FilesPayload
deriving DecidableEq

/-- The file paths carried by a request's `files` field ([] if absent). -/
def Request.fileNames (r : Request) : List String :=
  match r.files with
  | none => []
  | some (.configFiles cfgs) => cfgs.map Prod.fst
  | some (.dataFiles dfs) => dfs.map Prod.fst

/-- Go `sort.Strings` order over these ASCII paths: lexicographic by
character (byte) value. -/
def charListLe : List Char → List Char → Bool
  | [], _ => true
  | _ :: _, [] => false
  | a :: as, b :: bs => if a = b then charListLe as bs else decide (a < b)

/-- Go `sort.Strings(keys)` in `addConfigFiles` (again via insertion
sort, a sorting algorithm meeting `sort.Strings`' contract). -/
def sortStrings (l : List String) : List String :=
  l.insertionSort (fun x y => charListLe x.data y.data = true)

/-- api/sdk.go `addConfigFiles`' per-file loop, abstracted over YAML
parsing: `yamlOk f` models whether `yamlutils.UnmarshalYAMLToMap` accepts
`f`'s content.  The first file that fails to parse, or that no switch arm
classifies, aborts with the corresponding error. -/
def addConfigFilesAux (yamlOk : String → Bool) :
    List String → Except StreamErr (List (String × String))
  | [] => .ok []
  | f :: rest =>
    if yamlOk f then
      match configWireKey f with
      | some key =>
        match addConfigFilesAux yamlOk rest with
        | .ok tail => .ok ((f, key) :: tail)
        | .error e => .error e
      | none => .error (.failedToAdd f)
    else .error (.badSyntax f)

/-- api/sdk.go `addConfigFiles`: walk the chunk's file names in sorted
order, classifying each into its wire field. -/
def addConfigFiles (yamlOk : String → Bool) (chunk : List String) :
    Except StreamErr (List (String × String)) :=
  addConfigFilesAux yamlOk (sortStrings chunk)

/-- api/sdk.go `addDataFiles`' content-type resolution for one file:
`.zip` and `.flr` are special-cased; any other extension goes through
`mime.TypeByExtension` — embedded abstractly as `mimeByExt`, since Go's
table is platform-dependent — and must land in the allow-list. -/
def dataContentType (mimeByExt : String → String) (filename : String) : Option String :=
  if pathExt filename = ".zip" then some "application/zip;zip_type=cloud_function"
  else if pathExt filename = ".flr" then some "x-world/x-vrml"
  else
    let m := mimeByExt (pathExt filename)
    if m = "audio/mpeg" ∨ m = "image/jpeg" ∨ m = "image/png" ∨ m = "audio/wav" ∨ m = "audio/x-wav"
    then some m else none

/-- api/sdk.go `addDataFiles`: a file with an unrecognized content type
is skipped (the Go code logs a warning and continues); the request's
`files` field is set only if at least one file survived. -/
def addDataFiles (mimeByExt : String → String) (chunk : List String) : Option FilesPayload :=
  let dfs := chunk.filterMap (fun f => (dataContentType mimeByExt f).map (fun ct => (f, ct)))
  if dfs.isEmpty then none else some (.dataFiles dfs)

/-- The platform-independent built-in extension table of the Go standard
library's `mime.TypeByExtension` (package `mime`, `builtinTypesLower`);
the empty string stands for "no known type". -/
def goBuiltinMime (ext : String) : String :=
  if ext = ".avif" then "image/avif"
  else if ext = ".css" then "text/css; charset=utf-8"
  else if ext = ".gif" then "image/gif"
  else if ext = ".htm" then "text/html; charset=utf-8"
  else if ext = ".html" then "text/html; charset=utf-8"
  else if ext = ".jpeg" then "image/jpeg"
  else if ext = ".jpg" then "image/jpeg"
  else if ext = ".js" then "text/javascript; charset=utf-8"
  else if ext = ".json" then "application/json"
  else if ext = ".mjs" then "text/javascript; charset=utf-8"
  else if ext = ".pdf" then "application/pdf"
  else if ext = ".png" then "image/png"
  else if ext = ".svg" then "image/svg+xml"
  else if ext = ".wasm" then "application/wasm"
  else if ext = ".webp" then "image/webp"
  else if ext = ".xml" then "text/xml; charset=utf-8"
  else ""

/-- api/sdk.go `(s *SDKStreamer).nextConfigFiles`: plan a config chunk;
an empty chunk means the very next file alone exceeds the budget, which is
the sizing error naming `s.configFilenames[s.i]`; otherwise build the
payload and advance the config cursor by the chunk's length. -/
def SDKStreamer.nextConfigFiles (s : SDKStreamer) (yamlOk : String → Bool) :
    Except StreamErr (Request × SDKStreamer) :=
  let chunk := s.nextChunk s.configFilenames s.i
  if chunk.isEmpty then
    .error (.exceedsLimit (s.configFilenames.getD s.i "") s.chunkSize)
  else
    match addConfigFiles yamlOk chunk with
    | .error e => .error e
    | .ok cfgs =>
      .ok ({ files := some (.configFiles cfgs) }, { s with i := s.i + chunk.length })

/-- api/sdk.go `(s *SDKStreamer).nextDataFiles`: as for config files, but
`addDataFiles` cannot fail, and the data cursor advances by the planned
chunk's length — including any skipped (unrecognized) files. -/
def SDKStreamer.nextDataFiles (s : SDKStreamer) (mimeByExt : String → String) :
    Except StreamErr (Request × SDKStreamer) :=
  let chunk := s.nextChunk s.dataFilenames s.j
  if chunk.isEmpty then
    .error (.exceedsLimit (s.dataFilenames.getD s.j "") s.chunkSize)
  else
    .ok ({ files := addDataFiles mimeByExt chunk }, { s with j := s.j + chunk.length })

/-- api/sdk.go `(s SDKStreamer).HasNext`. -/
def SDKStreamer.HasNext (s : SDKStreamer) : Bool :=
  decide (s.i + s.j < s.filesCount)

/-- api/sdk.go `(s *SDKStreamer).Next`: serve the config phase while
config names remain, then the data phase; past both, the bare template is
returned.  The Go method returns `(nil, err)` on error and `(req, nil)` on
success, embedded as `Except`. -/
def SDKStreamer.Next (s : SDKStreamer) (yamlOk : String → Bool)
    (mimeByExt : String → String) : Except StreamErr (Request × SDKStreamer) :=
  if s.i < s.configFilenames.length then s.nextConfigFiles yamlOk
  else if s.j < s.dataFilenames.length then s.nextDataFiles mimeByExt
  else .ok ({ files := none }, s)

/-- The file `Next()` will consult first: the one at the config cursor
while config files remain, else the one at the data cursor. -/
def SDKStreamer.cursorFile (s : SDKStreamer) : Option String :=
  if s.i < s.configFilenames.length then some (s.configFilenames.getD s.i "")
  else if s.j < s.dataFilenames.length then some (s.dataFilenames.getD s.j "")
  else none

/-! ## The upload framer (api/sdk.go `sendFilesToServerJSON`) -/

/-- An error surfaced by `sendFilesToServerJSON`. -/
inductive SendErr where
  | planErr (e : StreamErr)
  | writeErr
deriving DecidableEq

/-- The streaming loop of api/sdk.go `sendFilesToServerJSON`, after the
opening `[` has been written.  `writeOk n` says whether the n-th write to
the pipe succeeds (`wn` counts writes issued so far); per the source, a
failed encode of a chunk, failed separating comma, or failed closing
bracket is logged and the function returns nil (`.ok ()`) — only an error
from `streamer.Next()` is returned as an error.  `fuel` bounds the
iteration count; each successful iteration consumes at least one file, so
`filesCount + 1` iterations always suffice from a `NewStreamer` state. -/
def sendLoop (yamlOk : String → Bool) (mimeByExt : String → String)
    (writeOk : Nat → Bool) : SDKStreamer → Nat → Nat → Except SendErr Unit
  | _, _, 0 => .ok ()
  | s, wn, fuel + 1 =>
    if s.HasNext then
      match s.Next yamlOk mimeByExt with
      | .error e => .error (.planErr e)
      | .ok (_, s') =>
        if writeOk wn then
          if s'.HasNext then
            if writeOk (wn + 1) then sendLoop yamlOk mimeByExt writeOk s' (wn + 2) fuel
            else .ok ()
          else sendLoop yamlOk mimeByExt writeOk s' (wn + 1) fuel
        else .ok ()
    else
      -- the closing "]": a failure is logged and swallowed, a success
      -- returns the (nil) deferred error — `.ok ()` either way.
      .ok ()

/-- api/sdk.go `sendFilesToServerJSON`, from the write of the opening `[`
onward (the earlier steps gather and check files without touching the
pipe, and their errors are outside the claims considered here).  A failure
of that very first write is returned as the function's error.  The
deferred `w.Close()` on an `io.PipeWriter` always reports nil, so it never
alters the result. -/
def sendFilesToServerJSON (yamlOk : String → Bool) (mimeByExt : String → String)
    (writeOk : Nat → Bool) (s : SDKStreamer) : Except SendErr Unit :=
  if writeOk 0 then sendLoop yamlOk mimeByExt writeOk s 1 (s.filesCount + 1)
  else .error .writeErr

/-! ## The download decoder's seen-set accounting (api/sdk.go
`receiveDataFiles`, `namesFromZip`) -/

/-- The content type marking a packed cloud-function bundle. -/
def cloudFunctionType : String := "application/zip;zip_type=cloud_function"

/-- One entry of a response's data-file batch.  The payload bytes enter
the seen-set accounting only through the member-name listing that
`namesFromZip` computes from them, embedded here as `zipNames` (the
archive's member names, in archive order). -/
structure DataFileEntry where
  filePath : String
  contentType : String
  zipNames : List String

/-- Go `df.Filepath[:len(df.Filepath)-len(".zip")]` (byte and character
positions coincide on these ASCII paths). -/
def stripZipSuffix (p : String) : String :=
  String.mk (p.data.take (p.data.length - 4))

/-- Go `path.Join(dir, name)` for the already-clean segments produced
here (no dot segments, no duplicate or trailing slashes). -/
def pathJoin (a b : String) : String :=
  if a = "" then b else if b = "" then a else a ++ "/" ++ b

/-- api/sdk.go `receiveDataFiles`' seen-set accounting (the disk writes
and their error exits aside): a non-bundle entry records its own path into
the seen set; a cloud-function bundle entry records the derived path of
every archive member — the `.zip`-stripped bundle path joined with the
member name.  The Go seen set is a `map[string]bool`; appending to the
list models insertion, and membership in the list models key presence. -/
def receiveDataFiles (dfs : List DataFileEntry) (seen : List String) : List String :=
  match dfs with
  | [] => seen
  | df :: rest =>
    if df.contentType ≠ cloudFunctionType then
      receiveDataFiles rest (seen ++ [df.filePath])
    else
      receiveDataFiles rest
        (seen ++ df.zipNames.map (fun v => pathJoin (stripZipSuffix df.filePath) v))

/-- Boolean skeleton of the `addConfigFiles` switch versus the
`isConfigFile` disjunction: if the disjunction (in `isConfigFile`'s order)
holds of twelve booleans, the switch (in `addConfigFiles`' order) hits a
non-default arm. -/
theorem configSwitchTotal :
    ∀ b1 b2 b3 b4 b5 b6 b7 b8 b9 b10 b11 b12 : Bool,
    (b11 || b2 || b3 || b4 || b6 || b7 || b10 || b8 || b5 || b12 || b9 || b1) = true →
    (if b1 then some "accountLinkingSecret"
     else if b2 then some "manifest"
     else if b3 then some "settings"
     else if b4 then some "actions"
     else if b5 then some "webhook"
     else if b6 then some "intent"
     else if b7 then some "globalIntentEvent"
     else if b8 then some "type"
     else if b9 then some "staticPrompt"
     else if b10 then some "scene"
     else if b11 then some "verticalSettings"
     else if b12 then some "resourceBundle"
     else none).isSome = true := by decide

/-- Every path accepted by `isConfigFile` is classified by some arm of the
`addConfigFiles` switch: the default (error) arm is unreachable for it. -/
theorem configWireKey_isSome_of_isConfigFile (f : String)
    (h : isConfigFile f = true) : (configWireKey f).isSome = true := by
  unfold isConfigFile at h
  unfold configWireKey
  exact configSwitchTotal (IsAccountLinkingSecret f) (IsManifest f) (IsSettings f)
    (IsActions f) (IsWebhookDefinition f) (IsIntent f) (IsGlobal f) (IsType f)
    (IsPrompt f) (IsScene f) (IsVertical f) (IsResourceBundle f) h

/-- C5: `findExtra(a, b)` returns exactly the keys of `a` that are not keys
of `b` — so a seen-set that is a superset of the local keys yields an empty
result, and local `{a,b,c}` against seen `{a,b}` yields exactly `{c}`. -/
theorem findExtra_eq_local_minus_seen {β : Type}
    (a : List (String × β)) (b : List String) (k : String) :
    k ∈ findExtra a b ↔ (k ∈ a.map Prod.fst ∧ k ∉ b) := by
  simp only [findExtra, List.mem_filter, List.mem_dedup, List.mem_append,
    decide_eq_true_eq]
  constructor
  · rintro ⟨hu | hb, hnb⟩
    · exact ⟨hu, hnb⟩
    · exact absurd hb hnb
  · rintro ⟨ha, hnb⟩
    exact ⟨Or.inl ha, hnb⟩

/-- C6: contrary to the classifier's documented contract ("the file must
have the name settings/accountLinkingSecret.yaml"), `IsAccountLinkingSecret`
accepts any path that merely begins with that string, e.g.
`settings/accountLinkingSecret.yaml.bak`. -/
theorem isAccountLinkingSecret_accepts_mere_extension :
    IsAccountLinkingSecret "settings/accountLinkingSecret.yaml.bak" = true ∧
      "settings/accountLinkingSecret.yaml.bak" ≠ "settings/accountLinkingSecret.yaml" := by
  constructor
  · decide
  · decide

/-- C10: for every path selected by the `isConfigFile` filter, the
"failed to add ... to a request" default arm of `addConfigFiles` is
unreachable — some wire-field case of the switch matches. -/
theorem addConfigFiles_default_unreachable (f : String)
    (h : isConfigFile f = true) : (configWireKey f).isSome = true :=
  configWireKey_isSome_of_isConfigFile f h

/-- Witness for C10 at the concrete path `manifest.yaml`. -/
theorem addConfigFiles_default_unreachable_witness :
    isConfigFile "manifest.yaml" = true ∧
      (configWireKey "manifest.yaml").isSome = true :=
  ⟨by decide, addConfigFiles_default_unreachable "manifest.yaml" (by decide)⟩

/-! ## Chunk-size accounting (C1, C3) -/

/-- The greedy scan never lets the running total pass the budget: whatever
files it admits on top of an in-budget `curSize` keep the total in budget. -/
theorem nextChunkAux_sum_le (sizes : List (String × Nat)) (chunkSize : Nat) :
    ∀ (rest : List String) (curSize : Nat), curSize ≤ chunkSize →
      curSize + ((nextChunkAux sizes chunkSize rest curSize).map (lookupSize sizes)).sum
        ≤ chunkSize
  | [], curSize, h => by simpa [nextChunkAux]
  | name :: rest, curSize, h => by
    unfold nextChunkAux
    by_cases h1 : curSize < chunkSize
    · by_cases h2 : curSize + lookupSize sizes name > chunkSize
      · simp only [if_pos h1, if_pos h2, List.map_nil, List.sum_nil]
        omega
      · have h2' : curSize + lookupSize sizes name ≤ chunkSize := Nat.le_of_not_lt h2
        have hrec := nextChunkAux_sum_le sizes chunkSize rest
          (curSize + lookupSize sizes name) h2'
        simp only [if_pos h1, if_neg h2, List.map_cons, List.sum_cons]
        omega
    · simp only [if_neg h1, List.map_nil, List.sum_nil]
      omega

/-- A successful `addConfigFilesAux` emits exactly its input names, in
order, as the `filePath` components. -/
theorem addConfigFilesAux_map_fst (yamlOk : String → Bool) :
    ∀ (l : List String) (res : List (String × String)),
      addConfigFilesAux yamlOk l = .ok res → res.map Prod.fst = l
  | [], res, h => by
    simp only [addConfigFilesAux] at h
    cases h
    rfl
  | f :: rest, res, h => by
    simp only [addConfigFilesAux] at h
    by_cases hy : yamlOk f = true
    · rw [if_pos hy] at h
      cases hk : configWireKey f with
      | none => rw [hk] at h; cases h
      | some key =>
        rw [hk] at h
        cases hr : addConfigFilesAux yamlOk rest with
        | error e => rw [hr] at h; cases h
        | ok tail =>
          rw [hr] at h
          cases h
          simp [addConfigFilesAux_map_fst yamlOk rest tail hr]
    · rw [if_neg hy] at h
      cases h

/-- The names surviving `addDataFiles`' filtering form a sublist of the
planned chunk. -/
theorem addDataFiles_names_sublist (mimeByExt : String → String) :
    ∀ chunk : List String,
      ((chunk.filterMap
          (fun f => (dataContentType mimeByExt f).map (fun ct => (f, ct)))).map
        Prod.fst).Sublist chunk
  | [] => by simp
  | f :: rest => by
    cases hf : dataContentType mimeByExt f with
    | none =>
      simp only [List.filterMap_cons, hf, Option.map_none']
      exact (addDataFiles_names_sublist mimeByExt rest).cons f
    | some ct =>
      simp only [List.filterMap_cons, hf, Option.map_some', List.map_cons]
      exact (addDataFiles_names_sublist mimeByExt rest).cons₂ f

/-- C1: for every positive budget, every request a successful `Next()`
produces carries files whose pre-computed estimated sizes sum to at most
the budget `chunkSize`. -/
theorem next_chunk_within_budget (s : SDKStreamer) (yamlOk : String → Bool)
    (mimeByExt : String → String) (req : Request) (s' : SDKStreamer)
    (hpos : 0 < s.chunkSize)
    (h : s.Next yamlOk mimeByExt = .ok (req, s')) :
    (req.fileNames.map (lookupSize s.sizes)).sum ≤ s.chunkSize := by
  unfold SDKStreamer.Next at h
  by_cases hc : s.i < s.configFilenames.length
  · rw [if_pos hc] at h
    unfold SDKStreamer.nextConfigFiles at h
    by_cases hemp : (s.nextChunk s.configFilenames s.i).isEmpty
    · rw [if_pos hemp] at h; cases h
    · rw [if_neg hemp] at h
      cases hadd : addConfigFiles yamlOk (s.nextChunk s.configFilenames s.i) with
      | error e => rw [hadd] at h; cases h
      | ok cfgs =>
        rw [hadd] at h
        cases h
        have hnames := addConfigFilesAux_map_fst yamlOk _ _ hadd
        have hperm : (cfgs.map Prod.fst).Perm (s.nextChunk s.configFilenames s.i) := by
          rw [hnames]
          exact List.perm_insertionSort _ _
        have hsum : ((cfgs.map Prod.fst).map (lookupSize s.sizes)).sum
            = ((s.nextChunk s.configFilenames s.i).map (lookupSize s.sizes)).sum :=
          (hperm.map (lookupSize s.sizes)).sum_eq
        have hle := nextChunkAux_sum_le s.sizes s.chunkSize
          (s.configFilenames.drop s.i) 0 (Nat.zero_le _)
        simp only [Nat.zero_add] at hle
        show ((cfgs.map Prod.fst).map (lookupSize s.sizes)).sum ≤ s.chunkSize
        rw [hsum]
        exact hle
  · rw [if_neg hc] at h
    by_cases hd : s.j < s.dataFilenames.length
    · rw [if_pos hd] at h
      unfold SDKStreamer.nextDataFiles at h
      by_cases hemp : (s.nextChunk s.dataFilenames s.j).isEmpty
      · rw [if_pos hemp] at h; cases h
      · rw [if_neg hemp] at h
        cases h
        have hle := nextChunkAux_sum_le s.sizes s.chunkSize
          (s.dataFilenames.drop s.j) 0 (Nat.zero_le _)
        simp only [Nat.zero_add] at hle
        unfold Request.fileNames addDataFiles
        by_cases hdfs : ((s.nextChunk s.dataFilenames s.j).filterMap
            (fun f => (dataContentType mimeByExt f).map (fun ct => (f, ct)))).isEmpty
        · simp [hdfs]
        · simp only [hdfs, if_neg, Bool.false_eq_true, not_false_eq_true]
          have hsub := (addDataFiles_names_sublist mimeByExt
            (s.nextChunk s.dataFilenames s.j)).map (lookupSize s.sizes)
          exact le_trans (hsub.sum_le_sum (by intro a _; exact Nat.zero_le a)) hle
    · rw [if_neg hd] at h
      cases h
      simp [Request.fileNames]

/-- Witness for C1: a two-config-file project under a generous budget. -/
theorem next_chunk_within_budget_witness :
    0 < (NewStreamer [("manifest.yaml", 3), ("settings/settings.yaml", 4)] [] 100).chunkSize ∧
    ((Request.mk (some (.configFiles
        [("manifest.yaml", "manifest"), ("settings/settings.yaml", "settings")]))).fileNames.map
      (lookupSize (NewStreamer [("manifest.yaml", 3), ("settings/settings.yaml", 4)] [] 100).sizes)).sum
      ≤ (NewStreamer [("manifest.yaml", 3), ("settings/settings.yaml", 4)] [] 100).chunkSize :=
  ⟨by decide,
    next_chunk_within_budget
      (NewStreamer [("manifest.yaml", 3), ("settings/settings.yaml", 4)] [] 100)
      (fun _ => true) goBuiltinMime
      (Request.mk (some (.configFiles
        [("manifest.yaml", "manifest"), ("settings/settings.yaml", "settings")])))
      ({ NewStreamer [("manifest.yaml", 3), ("settings/settings.yaml", 4)] [] 100 with i := 2 })
      (by decide) (by decide)⟩

/-- C3: whenever the file at the active cursor is estimated strictly over
the budget, `Next()` fails with the sizing error naming that file (and, the
result being an error, no request envelope is produced at all). -/
theorem next_oversized_cursor_fails (s : SDKStreamer) (yamlOk : String → Bool)
    (mimeByExt : String → String) (f : String)
    (hcur : s.cursorFile = some f)
    (hbig : lookupSize s.sizes f > s.chunkSize) :
    s.Next yamlOk mimeByExt = .error (.exceedsLimit f s.chunkSize) := by
  unfold SDKStreamer.cursorFile at hcur
  unfold SDKStreamer.Next
  by_cases hc : s.i < s.configFilenames.length
  · rw [if_pos hc] at hcur
    cases hcur
    rw [if_pos hc]
    unfold SDKStreamer.nextConfigFiles SDKStreamer.nextChunk
    rw [List.drop_eq_getElem_cons hc]
    rw [← List.getD_eq_getElem s.configFilenames "" hc]
    unfold nextChunkAux
    by_cases h0 : 0 < s.chunkSize
    · rw [if_pos h0]
      have : 0 + lookupSize s.sizes (s.configFilenames.getD s.i "") > s.chunkSize := by
        omega
      rw [if_pos this]
      simp
    · rw [if_neg h0]
      simp
  · rw [if_neg hc] at hcur
    rw [if_neg hc]
    by_cases hd : s.j < s.dataFilenames.length
    · rw [if_pos hd] at hcur
      cases hcur
      rw [if_pos hd]
      unfold SDKStreamer.nextDataFiles SDKStreamer.nextChunk
      rw [List.drop_eq_getElem_cons hd]
      rw [← List.getD_eq_getElem s.dataFilenames "" hd]
      unfold nextChunkAux
      by_cases h0 : 0 < s.chunkSize
      · rw [if_pos h0]
        have : 0 + lookupSize s.sizes (s.dataFilenames.getD s.j "") > s.chunkSize := by
          omega
        rw [if_pos this]
        simp
      · rw [if_neg h0]
        simp
    · rw [if_neg hd] at hcur
      cases hcur

/-! ## Data-file skipping versus the budget (C4) -/

/-- Counterexample for C4: one unrecognized 6-byte data file
(`resources/a.xyz`, base64 size 8) ahead of a recognized one
(`resources/b.png`, base64 size 8) under a 12-byte budget.  The planner
charges the unrecognized file's size, so the first chunk holds only the
unrecognized file — which `addDataFiles` then drops, leaving a request
with no `files` field at all — even though the recognized file alone fits
the budget.  Were the unrecognized file really "not counted against the
budget", the first chunk would have carried `resources/b.png`. -/
theorem unrecognized_file_counted_against_budget :
    (NewStreamer [] [("resources/a.xyz", 6), ("resources/b.png", 6)] 12).nextChunk
        (NewStreamer [] [("resources/a.xyz", 6), ("resources/b.png", 6)] 12).dataFilenames 0
      = ["resources/a.xyz"] ∧
    (NewStreamer [] [("resources/a.xyz", 6), ("resources/b.png", 6)] 12).Next
        (fun _ => true) goBuiltinMime
      = .ok ({ files := none },
          ({ NewStreamer [] [("resources/a.xyz", 6), ("resources/b.png", 6)] 12 with j := 1 })) ∧
    dataContentType goBuiltinMime "resources/a.xyz" = none ∧
    dataContentType goBuiltinMime "resources/b.png" = some "image/png" ∧
    lookupSize (NewStreamer [] [("resources/a.xyz", 6), ("resources/b.png", 6)] 12).sizes
        "resources/b.png" ≤ 12 := by
  refine ⟨by decide, by decide, by decide, by decide, by decide⟩

/-- C4 (amended): in the data phase, a file with unresolvable content
type is skipped with a warning — excluded from the emitted payload — and
neither blocks the chunk from completing nor the call from succeeding
(the cursor advances past the whole planned chunk, skipped files
included); recognized files of the same chunk are all emitted.  (Its
estimated size, however, does occupy planning budget: see the
counterexample.) -/
theorem next_data_phase_skips_unrecognized (s : SDKStreamer)
    (yamlOk : String → Bool) (mimeByExt : String → String)
    (hcfg : s.configFilenames.length ≤ s.i) (hj : s.j < s.dataFilenames.length)
    (hne : s.nextChunk s.dataFilenames s.j ≠ []) :
    ∃ req : Request,
      s.Next yamlOk mimeByExt
        = .ok (req, { s with j := s.j + (s.nextChunk s.dataFilenames s.j).length }) ∧
      (∀ f ∈ s.nextChunk s.dataFilenames s.j,
        dataContentType mimeByExt f = none → f ∉ req.fileNames) ∧
      (∀ f ∈ s.nextChunk s.dataFilenames s.j,
        (dataContentType mimeByExt f).isSome = true → f ∈ req.fileNames) := by
  have hlt : ¬ s.i < s.configFilenames.length := Nat.not_lt.mpr hcfg
  have hemp : ¬ ((s.nextChunk s.dataFilenames s.j).isEmpty = true) := by
    simpa [List.isEmpty_iff] using hne
  refine ⟨{ files := addDataFiles mimeByExt (s.nextChunk s.dataFilenames s.j) }, ?_, ?_, ?_⟩
  · unfold SDKStreamer.Next
    rw [if_neg hlt, if_pos hj]
    unfold SDKStreamer.nextDataFiles
    rw [if_neg hemp]
  · intro f hf hnone hmem
    unfold Request.fileNames addDataFiles at hmem
    by_cases hdfs : ((s.nextChunk s.dataFilenames s.j).filterMap
        (fun f => (dataContentType mimeByExt f).map (fun ct => (f, ct)))).isEmpty
    · simp [hdfs] at hmem
    · simp only [hdfs, Bool.false_eq_true, if_neg, not_false_eq_true] at hmem
      obtain ⟨⟨f', ct⟩, hpair, hfst⟩ := List.mem_map.mp hmem
      obtain ⟨a, _, ha⟩ := List.mem_filterMap.mp hpair
      cases hct : dataContentType mimeByExt a with
      | none => rw [hct] at ha; cases ha
      | some ct' =>
        rw [hct] at ha
        simp only [Option.map_some'] at ha
        cases ha
        simp only at hfst
        subst hfst
        rw [hnone] at hct
        cases hct
  · intro f hf hsome
    cases hct : dataContentType mimeByExt f with
    | none => rw [hct] at hsome; cases hsome
    | some ct =>
      have hpair : (f, ct) ∈ (s.nextChunk s.dataFilenames s.j).filterMap
          (fun f => (dataContentType mimeByExt f).map (fun ct => (f, ct))) :=
        List.mem_filterMap.mpr ⟨f, hf, by rw [hct]; rfl⟩
      have hdfs : ¬ (((s.nextChunk s.dataFilenames s.j).filterMap
          (fun f => (dataContentType mimeByExt f).map (fun ct => (f, ct)))).isEmpty = true) := by
        intro habs
        rw [List.isEmpty_iff] at habs
        rw [habs] at hpair
        cases hpair
      unfold Request.fileNames addDataFiles
      simp only [hdfs, Bool.false_eq_true, if_neg, not_false_eq_true]
      exact List.mem_map.mpr ⟨(f, ct), hpair, rfl⟩

/-- Witness for the amended C4 at the counterexample's streamer state. -/
theorem next_data_phase_skips_unrecognized_witness :
    ((NewStreamer [] [("resources/a.xyz", 6), ("resources/b.png", 6)] 12).configFilenames.length
        ≤ (NewStreamer [] [("resources/a.xyz", 6), ("resources/b.png", 6)] 12).i) ∧
    ((NewStreamer [] [("resources/a.xyz", 6), ("resources/b.png", 6)] 12).j
        < (NewStreamer [] [("resources/a.xyz", 6), ("resources/b.png", 6)] 12).dataFilenames.length) ∧
    (∃ req : Request,
      (NewStreamer [] [("resources/a.xyz", 6), ("resources/b.png", 6)] 12).Next
          (fun _ => true) goBuiltinMime
        = .ok (req, { NewStreamer [] [("resources/a.xyz", 6), ("resources/b.png", 6)] 12 with
            j := (NewStreamer [] [("resources/a.xyz", 6), ("resources/b.png", 6)] 12).j
              + ((NewStreamer [] [("resources/a.xyz", 6), ("resources/b.png", 6)] 12).nextChunk
                  (NewStreamer [] [("resources/a.xyz", 6), ("resources/b.png", 6)] 12).dataFilenames
                  (NewStreamer [] [("resources/a.xyz", 6), ("resources/b.png", 6)] 12).j).length }) ∧
      (∀ f ∈ (NewStreamer [] [("resources/a.xyz", 6), ("resources/b.png", 6)] 12).nextChunk
          (NewStreamer [] [("resources/a.xyz", 6), ("resources/b.png", 6)] 12).dataFilenames
          (NewStreamer [] [("resources/a.xyz", 6), ("resources/b.png", 6)] 12).j,
        dataContentType goBuiltinMime f = none → f ∉ req.fileNames) ∧
      (∀ f ∈ (NewStreamer [] [("resources/a.xyz", 6), ("resources/b.png", 6)] 12).nextChunk
          (NewStreamer [] [("resources/a.xyz", 6), ("resources/b.png", 6)] 12).dataFilenames
          (NewStreamer [] [("resources/a.xyz", 6), ("resources/b.png", 6)] 12).j,
        (dataContentType goBuiltinMime f).isSome = true → f ∈ req.fileNames)) :=
  ⟨by decide, by decide,
    next_data_phase_skips_unrecognized
      (NewStreamer [] [("resources/a.xyz", 6), ("resources/b.png", 6)] 12)
      (fun _ => true) goBuiltinMime (by decide) (by decide) (by decide)⟩

/-! ## Seen-set accounting of the download decoder (C9) -/

/-- Counterexample for C9: decoding a single cloud-function bundle entry
records the derived member path but not the bundle's own `.zip` path. -/
theorem receive_bundle_own_path_not_recorded :
    "webhooks/wh.zip" ∉ receiveDataFiles
        [⟨"webhooks/wh.zip", "application/zip;zip_type=cloud_function", ["index.js"]⟩] [] ∧
    "webhooks/wh/index.js" ∈ receiveDataFiles
        [⟨"webhooks/wh.zip", "application/zip;zip_type=cloud_function", ["index.js"]⟩] [] := by
  refine ⟨by decide, by decide⟩

/-- C9 (amended): the seen set after `receiveDataFiles` holds exactly the
prior entries, the own path of every non-bundle entry, and — for every
cloud-function bundle entry — the derived path (`.zip`-stripped bundle
path joined with the member name) of each of its archive members; a
bundle's own path is not itself recorded. -/
theorem receiveDataFiles_seen_mem :
    ∀ (dfs : List DataFileEntry) (seen : List String) (k : String),
      k ∈ receiveDataFiles dfs seen ↔
        k ∈ seen ∨ ∃ df ∈ dfs,
          (df.contentType ≠ cloudFunctionType ∧ k = df.filePath) ∨
          (df.contentType = cloudFunctionType ∧
            ∃ v ∈ df.zipNames, k = pathJoin (stripZipSuffix df.filePath) v)
  | [], seen, k => by simp [receiveDataFiles]
  | df :: rest, seen, k => by
    by_cases hct : df.contentType = cloudFunctionType
    · rw [receiveDataFiles, if_neg (by simpa using hct),
        receiveDataFiles_seen_mem rest _ k]
      constructor
      · rintro (hs | ⟨df', hdf', hp⟩)
        · rcases List.mem_append.mp hs with hs | hm
          · exact Or.inl hs
          · obtain ⟨v, hv, hkv⟩ := List.mem_map.mp hm
            exact Or.inr ⟨df, List.mem_cons_self df rest, Or.inr ⟨hct, v, hv, hkv.symm⟩⟩
        · exact Or.inr ⟨df', List.mem_cons_of_mem df hdf', hp⟩
      · rintro (hs | ⟨df', hdf', hp⟩)
        · exact Or.inl (List.mem_append.mpr (Or.inl hs))
        · rcases List.mem_cons.mp hdf' with heq | hdf''
          · subst heq
            rcases hp with ⟨hne, _⟩ | ⟨_, v, hv, hkv⟩
            · exact absurd hct hne
            · exact Or.inl (List.mem_append.mpr
                (Or.inr (List.mem_map.mpr ⟨v, hv, hkv.symm⟩)))
          · exact Or.inr ⟨df', hdf'', hp⟩
    · rw [receiveDataFiles, if_pos (by simpa using hct),
        receiveDataFiles_seen_mem rest _ k]
      constructor
      · rintro (hs | ⟨df', hdf', hp⟩)
        · rcases List.mem_append.mp hs with hs | hk
          · exact Or.inl hs
          · exact Or.inr ⟨df, List.mem_cons_self df rest,
              Or.inl ⟨hct, List.mem_singleton.mp hk⟩⟩
        · exact Or.inr ⟨df', List.mem_cons_of_mem df hdf', hp⟩
      · rintro (hs | ⟨df', hdf', hp⟩)
        · exact Or.inl (List.mem_append.mpr (Or.inl hs))
        · rcases List.mem_cons.mp hdf' with heq | hdf''
          · subst heq
            rcases hp with ⟨_, hk⟩ | ⟨heq2, _⟩
            · exact Or.inl (List.mem_append.mpr (Or.inr (List.mem_singleton.mpr hk)))
            · exact absurd heq2 hct
          · exact Or.inr ⟨df', hdf'', hp⟩

/-! ## Framing failures of the upload loop (C8) -/

/-- The streaming loop itself never surfaces a write failure: its only
error exit wraps an error returned by `Next()`. -/
theorem sendLoop_error_is_plan_error (yamlOk : String → Bool)
    (mimeByExt : String → String) (writeOk : Nat → Bool) :
    ∀ (fuel : Nat) (s : SDKStreamer) (wn : Nat) (e : SendErr),
      sendLoop yamlOk mimeByExt writeOk s wn fuel = .error e →
      ∃ pe, e = .planErr pe
  | 0, s, wn, e => by intro h; cases h
  | fuel + 1, s, wn, e => by
    intro h
    unfold sendLoop at h
    by_cases hn : s.HasNext = true
    · rw [if_pos hn] at h
      cases hx : s.Next yamlOk mimeByExt with
      | error pe =>
        rw [hx] at h
        cases h
        exact ⟨pe, rfl⟩
      | ok p =>
        rw [hx] at h
        obtain ⟨req, s'⟩ := p
        dsimp only at h
        by_cases hw : writeOk wn = true
        · rw [if_pos hw] at h
          by_cases hn' : s'.HasNext = true
          · rw [if_pos hn'] at h
            by_cases hw' : writeOk (wn + 1) = true
            · rw [if_pos hw'] at h
              exact sendLoop_error_is_plan_error yamlOk mimeByExt writeOk fuel s' (wn + 2) e h
            · rw [if_neg hw'] at h; cases h
          · rw [if_neg hn'] at h
            exact sendLoop_error_is_plan_error yamlOk mimeByExt writeOk fuel s' (wn + 1) e h
        · rw [if_neg hw] at h; cases h
    · rw [if_neg hn] at h
      cases h

/-- C8: the upload framer escalates no write failure that occurs once
chunk streaming is underway — any error it returns is either a planning
error from `Next()` or a failure of the very first pre-chunk write of the
opening bracket; and a planning error on the first pending chunk is indeed
returned as an error. -/
theorem sendFiles_write_failure_not_escalated (yamlOk : String → Bool)
    (mimeByExt : String → String) (writeOk : Nat → Bool) (s : SDKStreamer) :
    (∀ e, sendFilesToServerJSON yamlOk mimeByExt writeOk s = .error e →
      (e = .writeErr ∧ writeOk 0 = false) ∨ ∃ pe, e = .planErr pe) ∧
    (∀ pe, writeOk 0 = true → s.HasNext = true →
      s.Next yamlOk mimeByExt = .error pe →
      sendFilesToServerJSON yamlOk mimeByExt writeOk s = .error (.planErr pe)) := by
  constructor
  · intro e h
    unfold sendFilesToServerJSON at h
    by_cases hw : writeOk 0 = true
    · rw [if_pos hw] at h
      exact Or.inr (sendLoop_error_is_plan_error yamlOk mimeByExt writeOk _ s 1 e h)
    · rw [if_neg hw] at h
      cases h
      simp only [Bool.not_eq_true] at hw
      exact Or.inl ⟨rfl, hw⟩
  · intro pe hw hn hx
    unfold sendFilesToServerJSON
    rw [if_pos hw]
    unfold sendLoop
    rw [if_pos hn, hx]

/-- Witness for C8: a one-file project whose single manifest exceeds the
budget — the sizing error from `Next()` surfaces through the framer. -/
theorem sendFiles_write_failure_not_escalated_witness :
    (NewStreamer [("manifest.yaml", 50)] [] 10).HasNext = true ∧
    sendFilesToServerJSON (fun _ => true) goBuiltinMime (fun _ => true)
        (NewStreamer [("manifest.yaml", 50)] [] 10)
      = .error (.planErr (.exceedsLimit "manifest.yaml" 10)) :=
  ⟨by decide,
    (sendFiles_write_failure_not_escalated (fun _ => true) goBuiltinMime (fun _ => true)
      (NewStreamer [("manifest.yaml", 50)] [] 10)).2
      (.exceedsLimit "manifest.yaml" 10) (by decide) (by decide) (by decide)⟩

/-- Witness for C3: a single 50-byte manifest against a 10-byte budget. -/
theorem next_oversized_cursor_fails_witness :
    (NewStreamer [("manifest.yaml", 50)] [] 10).cursorFile = some "manifest.yaml" ∧
    lookupSize (NewStreamer [("manifest.yaml", 50)] [] 10).sizes "manifest.yaml" > 10 ∧
    (NewStreamer [("manifest.yaml", 50)] [] 10).Next (fun _ => true) goBuiltinMime
      = .error (.exceedsLimit "manifest.yaml" 10) :=
  ⟨by decide, by decide,
    next_oversized_cursor_fails (NewStreamer [("manifest.yaml", 50)] [] 10)
      (fun _ => true) goBuiltinMime "manifest.yaml" (by decide) (by decide)⟩

/-! ## Construction-time ordering of the name lists (C2) -/

theorem listSwap_length (a : List String) (i j : Nat) :
    (listSwap a i j).length = a.length := by
  simp [listSwap]

theorem listSwap_getElem?_left (a : List String) (i j : Nat)
    (hij : i ≤ j) (hj : j < a.length) : (listSwap a i j)[i]? = a[j]? := by
  have hi : i < a.length := Nat.lt_of_le_of_lt hij hj
  unfold listSwap
  by_cases heq : j = i
  · subst heq
    rw [List.getElem?_set_self (by simpa using hj)]
    rw [List.getD_eq_getElem a "" hj, List.getElem?_eq_getElem hj]
  · rw [List.getElem?_set_ne heq, List.getElem?_set_self hi]
    rw [List.getD_eq_getElem a "" hj, List.getElem?_eq_getElem hj]

theorem listSwap_getElem?_right (a : List String) (i j : Nat)
    (hij : i ≤ j) (hj : j < a.length) : (listSwap a i j)[j]? = a[i]? := by
  have hi : i < a.length := Nat.lt_of_le_of_lt hij hj
  unfold listSwap
  rw [List.getElem?_set_self (by simpa using hj)]
  rw [List.getD_eq_getElem a "" hi, List.getElem?_eq_getElem hi]

theorem listSwap_getElem?_other (a : List String) (i j k : Nat)
    (hki : k ≠ i) (hkj : k ≠ j) : (listSwap a i j)[k]? = a[k]? := by
  unfold listSwap
  rw [List.getElem?_set_ne (Ne.symm hkj), List.getElem?_set_ne (Ne.symm hki)]

/-- Moving the m-th element of a list to its head while writing `x` into
position m permutes the list with `x` consed on. -/
theorem getD_cons_set_perm (d : String) :
    ∀ (t : List String) (m : Nat) (x : String), m < t.length →
      (t.getD m d :: t.set m x).Perm (x :: t)
  | b :: t2, 0, x, _ => by
    simp only [List.getD_cons_zero, List.set_cons_zero]
    exact List.Perm.swap x b t2
  | b :: t2, m + 1, x, h => by
    simp only [List.getD_cons_succ, List.set_cons_succ]
    have h2 : m < t2.length := by
      simp only [List.length_cons] at h
      omega
    refine List.Perm.trans (List.Perm.swap b (t2.getD m d) (t2.set m x)) ?_
    refine List.Perm.trans (List.Perm.cons b (getD_cons_set_perm d t2 m x h2)) ?_
    exact List.Perm.swap x b t2

/-- A Go parallel-assignment swap of two in-range positions permutes the
list. -/
theorem listSwap_perm :
    ∀ (a : List String) (i j : Nat), i < a.length → j < a.length →
      (listSwap a i j).Perm a
  | h :: t, 0, 0, _, _ => by
    simp [listSwap]
  | h :: t, 0, n + 1, _, hj => by
    unfold listSwap
    simp only [List.getD_cons_succ, List.getD_cons_zero, List.set_cons_zero,
      List.set_cons_succ]
    refine getD_cons_set_perm "" t n h ?_
    simp only [List.length_cons] at hj
    omega
  | h :: t, m + 1, 0, hi, _ => by
    unfold listSwap
    simp only [List.getD_cons_succ, List.getD_cons_zero, List.set_cons_zero,
      List.set_cons_succ]
    refine getD_cons_set_perm "" t m h ?_
    simp only [List.length_cons] at hi
    omega
  | h :: t, m + 1, n + 1, hi, hj => by
    unfold listSwap
    simp only [List.getD_cons_succ, List.set_cons_succ]
    refine List.Perm.cons h ?_
    have hm : m < t.length := by simp only [List.length_cons] at hi; omega
    have hn : n < t.length := by simp only [List.length_cons] at hj; omega
    exact listSwap_perm t m n hm hn

/-- Two lists agreeing at every index below `n` have equal `take n`. -/
theorem take_eq_of_agree_below (l₁ l₂ : List String) (n : Nat)
    (h : ∀ k, k < n → l₁[k]? = l₂[k]?) : l₁.take n = l₂.take n := by
  apply List.ext_getElem?
  intro k
  rw [List.getElem?_take, List.getElem?_take]
  by_cases hk : k < n
  · rw [if_pos hk, if_pos hk]
    exact h k hk
  · rw [if_neg hk, if_neg hk]

/-- Characterization of the `moveToFront` loop: started at cursor `i` on
strictly increasing in-range positions (all ≥ i), it leaves the prefix
below `i` alone, lays the elements found at the listed positions right
after it, in listed order, and permutes the whole list. -/
theorem moveToFrontAux_spec :
    ∀ (ps : List Nat) (a : List String) (i : Nat),
      (∀ p ∈ ps, i ≤ p ∧ p < a.length) → ps.Pairwise (· < ·) →
      (∃ rest, moveToFrontAux a ps i
          = a.take i ++ ps.map (fun p => a.getD p "") ++ rest) ∧
      (moveToFrontAux a ps i).Perm a
  | [], a, i, _, _ => by
    refine ⟨⟨a.drop i, ?_⟩, ?_⟩
    · simp [moveToFrontAux]
    · simp [moveToFrontAux]
  | p :: ps', a, i, hb, hpw => by
    obtain ⟨hip, hpl⟩ := hb p (List.mem_cons_self p ps')
    have hi : i < a.length := Nat.lt_of_le_of_lt hip hpl
    have hb' : ∀ q ∈ ps', i + 1 ≤ q ∧ q < (listSwap a i p).length := by
      intro q hq
      have hpq : p < q := (List.pairwise_cons.mp hpw).1 q hq
      refine ⟨by omega, ?_⟩
      rw [listSwap_length]
      exact (hb q (List.mem_cons_of_mem p hq)).2
    have hpw' : ps'.Pairwise (· < ·) := (List.pairwise_cons.mp hpw).2
    obtain ⟨⟨rest, hrest⟩, hperm⟩ :=
      moveToFrontAux_spec ps' (listSwap a i p) (i + 1) hb' hpw'
    have hswap : (listSwap a i p).Perm a := listSwap_perm a i p hi hpl
    have hstep : moveToFrontAux a (p :: ps') i
        = moveToFrontAux (listSwap a i p) ps' (i + 1) := by
      simp only [moveToFrontAux]
    constructor
    · refine ⟨rest, ?_⟩
      rw [hstep, hrest]
      have htake : (listSwap a i p).take (i + 1) = a.take i ++ [a.getD p ""] := by
        rw [List.take_succ]
        have h1 : (listSwap a i p).take i = a.take i :=
          take_eq_of_agree_below _ _ i (fun k hk =>
            listSwap_getElem?_other a i p k (by omega) (by omega))
        have h2 : (listSwap a i p)[i]? = some (a.getD p "") := by
          rw [listSwap_getElem?_left a i p hip hpl]
          rw [List.getD_eq_getElem a "" hpl, List.getElem?_eq_getElem hpl]
        rw [h1, h2]
        rfl
      have hmap : ps'.map (fun q => (listSwap a i p).getD q "")
          = ps'.map (fun q => a.getD q "") := by
        apply List.map_congr_left
        intro q hq
        have hpq : p < q := (List.pairwise_cons.mp hpw).1 q hq
        have hiq : i + 1 ≤ q := (hb' q hq).1
        rw [List.getD_eq_getElem?_getD, List.getD_eq_getElem?_getD,
          listSwap_getElem?_other a i p q (by omega) (by omega)]
      rw [htake, hmap]
      simp [List.append_assoc]
    · rw [hstep]
      exact hperm.trans hswap

/-- The position list built by `sortConfigFiles` is a sublist of the
index range. -/
theorem settingsManifestPos_sublist_range (a : List String) :
    (settingsManifestPos a).Sublist (List.range a.length) := by
  unfold settingsManifestPos
  have h2 := (List.filter_sublist
    (p := fun iv => IsSettings iv.2 || IsManifest iv.2) a.enum).map Prod.fst
  rwa [List.enum_map_fst] at h2

theorem settingsManifestPos_pairwise (a : List String) :
    (settingsManifestPos a).Pairwise (· < ·) :=
  (List.pairwise_lt_range a.length).sublist (settingsManifestPos_sublist_range a)

theorem settingsManifestPos_lt (a : List String) :
    ∀ p ∈ settingsManifestPos a, p < a.length := fun p hp =>
  List.mem_range.mp ((settingsManifestPos_sublist_range a).subset hp)

/-- Filtering an enumeration on the element and projecting back to the
element is plain filtering. -/
theorem enumFrom_filter_map_snd (P : String → Bool) :
    ∀ (l : List String) (n : Nat),
      ((l.enumFrom n).filter (fun iv => P iv.2)).map Prod.snd = l.filter P
  | [], _ => rfl
  | x :: l, n => by
    rw [List.enumFrom_cons]
    by_cases hx : P x = true
    · rw [List.filter_cons_of_pos (by simpa using hx), List.filter_cons_of_pos hx]
      simp only [List.map_cons]
      rw [enumFrom_filter_map_snd P l (n + 1)]
    · rw [List.filter_cons_of_neg (by simpa using hx), List.filter_cons_of_neg hx]
      exact enumFrom_filter_map_snd P l (n + 1)

/-- An entry of an enumeration records a genuine index-element pair. -/
theorem getElem?_of_mem_enumFrom :
    ∀ (l : List String) (n : Nat) (q : Nat × String), q ∈ l.enumFrom n →
      n ≤ q.1 ∧ l[q.1 - n]? = some q.2
  | [], _, q, h => by cases h
  | x :: l, n, q, h => by
    rw [List.enumFrom_cons] at h
    rcases List.mem_cons.mp h with heq | hmem
    · subst heq
      exact ⟨Nat.le_refl n, by simp⟩
    · obtain ⟨hle, hget⟩ := getElem?_of_mem_enumFrom l (n + 1) q hmem
      refine ⟨by omega, ?_⟩
      have hq : q.1 - n = (q.1 - (n + 1)) + 1 := by omega
      rw [hq]
      simpa using hget

/-- Reading the listed positions back out of the list yields exactly the
settings/manifest files, in their original relative order. -/
theorem settingsManifestPos_map_getD (a : List String) :
    (settingsManifestPos a).map (fun p => a.getD p "")
      = a.filter (fun v => IsSettings v || IsManifest v) := by
  unfold settingsManifestPos
  rw [List.map_map]
  rw [← enumFrom_filter_map_snd (fun v => IsSettings v || IsManifest v) a 0]
  show (List.filter _ a.enum).map _ = _
  apply List.map_congr_left
  intro q hq
  have hq' : q ∈ a.enumFrom 0 := (List.filter_sublist _).subset hq
  obtain ⟨_, hget⟩ := getElem?_of_mem_enumFrom a 0 q hq'
  simp only [Nat.sub_zero] at hget
  show a.getD q.1 "" = q.2
  rw [List.getD_eq_getElem?_getD, hget]
  rfl

theorem settingsManifestPos_length (a : List String) :
    (settingsManifestPos a).length
      = (a.filter (fun v => IsSettings v || IsManifest v)).length := by
  rw [← settingsManifestPos_map_getD a, List.length_map]

/-- What `sortConfigFiles` does to the config-file name list: the first
`k` names (`k` = number of settings/manifest files) are exactly the
settings/manifest files in their original relative order; the remaining
names are a permutation of the other config files, sorted ascending by
estimated size. -/
theorem sortConfigFiles_spec (a : List String) (sizes : List (String × Nat)) :
    (sortConfigFiles a sizes).take
        ((a.filter (fun v => IsSettings v || IsManifest v)).length)
      = a.filter (fun v => IsSettings v || IsManifest v) ∧
    ((sortConfigFiles a sizes).drop
        ((a.filter (fun v => IsSettings v || IsManifest v)).length)).Sorted
      (fun x y => lookupSize sizes x ≤ lookupSize sizes y) ∧
    ((sortConfigFiles a sizes).drop
        ((a.filter (fun v => IsSettings v || IsManifest v)).length)).Perm
      (a.filter (fun v => !(IsSettings v || IsManifest v))) := by
  haveI htot : IsTotal String (fun x y => lookupSize sizes x ≤ lookupSize sizes y) :=
    ⟨fun x y => Nat.le_total _ _⟩
  haveI htr : IsTrans String (fun x y => lookupSize sizes x ≤ lookupSize sizes y) :=
    ⟨fun _ _ _ => Nat.le_trans⟩
  have hb : ∀ p ∈ settingsManifestPos a, 0 ≤ p ∧ p < a.length := fun p hp =>
    ⟨Nat.zero_le p, settingsManifestPos_lt a p hp⟩
  obtain ⟨⟨rest, hrest⟩, hperm⟩ :=
    moveToFrontAux_spec (settingsManifestPos a) a 0 hb (settingsManifestPos_pairwise a)
  rw [List.take_zero, List.nil_append, settingsManifestPos_map_getD a] at hrest
  have hlen : (settingsManifestPos a).length
      = (a.filter (fun v => IsSettings v || IsManifest v)).length :=
    settingsManifestPos_length a
  have htake : (moveToFrontAux a (settingsManifestPos a) 0).take
      ((a.filter (fun v => IsSettings v || IsManifest v)).length)
      = a.filter (fun v => IsSettings v || IsManifest v) := by
    rw [hrest]
    exact List.take_left _ _
  have hdrop : (moveToFrontAux a (settingsManifestPos a) 0).drop
      ((a.filter (fun v => IsSettings v || IsManifest v)).length) = rest := by
    rw [hrest]
    exact List.drop_left _ _
  have hsort : sortConfigFiles a sizes
      = (moveToFrontAux a (settingsManifestPos a) 0).take
          ((a.filter (fun v => IsSettings v || IsManifest v)).length)
        ++ ((moveToFrontAux a (settingsManifestPos a) 0).drop
          ((a.filter (fun v => IsSettings v || IsManifest v)).length)).insertionSort
            (fun x y => lookupSize sizes x ≤ lookupSize sizes y) := by
    unfold sortConfigFiles
    dsimp only
    rw [hlen]
  have hrestperm : rest.Perm (a.filter (fun v => !(IsSettings v || IsManifest v))) := by
    have h1 : (a.filter (fun v => IsSettings v || IsManifest v) ++ rest).Perm
        (a.filter (fun v => IsSettings v || IsManifest v)
          ++ a.filter (fun v => !(IsSettings v || IsManifest v))) := by
      rw [← hrest]
      exact hperm.trans (List.filter_append_perm _ a).symm
    exact (List.perm_append_left_iff _).mp h1
  have hfrontlen : (a.filter (fun v => IsSettings v || IsManifest v)).length
      ≤ ((moveToFrontAux a (settingsManifestPos a) 0).take
          ((a.filter (fun v => IsSettings v || IsManifest v)).length)).length := by
    rw [htake]
  refine ⟨?_, ?_, ?_⟩
  · rw [hsort, List.take_append_of_le_length hfrontlen, List.take_take,
      Nat.min_self, htake]
  · rw [hsort, htake]
    have := List.drop_left (a.filter (fun v => IsSettings v || IsManifest v))
      (((moveToFrontAux a (settingsManifestPos a) 0).drop
          ((a.filter (fun v => IsSettings v || IsManifest v)).length)).insertionSort
        (fun x y => lookupSize sizes x ≤ lookupSize sizes y))
    rw [this]
    exact List.sorted_insertionSort _ _
  · rw [hsort, htake]
    rw [List.drop_left]
    exact (List.perm_insertionSort _ _).trans (hdrop ▸ hrestperm)

/-- `sortConfigFiles` permutes its input. -/
theorem sortConfigFiles_perm (a : List String) (sizes : List (String × Nat)) :
    (sortConfigFiles a sizes).Perm a := by
  obtain ⟨h1, _, h3⟩ := sortConfigFiles_spec a sizes
  have hsplit := List.take_append_drop
    ((a.filter (fun v => IsSettings v || IsManifest v)).length) (sortConfigFiles a sizes)
  rw [← hsplit, h1]
  exact (List.Perm.append_left _ h3).trans (List.filter_append_perm _ a)

/-- When every pending file has positive size and all of them fit the
budget together, the greedy scan consumes them all. -/
theorem nextChunkAux_all (sizes : List (String × Nat)) (B : Nat) :
    ∀ (rest : List String) (cur : Nat),
      (∀ f ∈ rest, 0 < lookupSize sizes f) →
      cur + (rest.map (lookupSize sizes)).sum ≤ B →
      nextChunkAux sizes B rest cur = rest
  | [], _, _, _ => rfl
  | f :: rest, cur, hpos, hsum => by
    simp only [List.map_cons, List.sum_cons] at hsum
    have hf : 0 < lookupSize sizes f := hpos f (List.mem_cons_self f rest)
    have h1 : cur < B := by omega
    have h2 : ¬ (cur + lookupSize sizes f > B) := by omega
    simp only [nextChunkAux]
    rw [if_pos h1, if_neg h2,
      nextChunkAux_all sizes B rest (cur + lookupSize sizes f)
        (fun g hg => hpos g (List.mem_cons_of_mem f hg)) (by omega)]

/-- `addConfigFilesAux` succeeds whenever every file parses and is
classified by some switch arm. -/
theorem addConfigFilesAux_ok (yamlOk : String → Bool) :
    ∀ l : List String, (∀ f ∈ l, yamlOk f = true) →
      (∀ f ∈ l, (configWireKey f).isSome = true) →
      ∃ res, addConfigFilesAux yamlOk l = .ok res
  | [], _, _ => ⟨[], rfl⟩
  | f :: rest, hy, hk => by
    obtain ⟨res, hres⟩ := addConfigFilesAux_ok yamlOk rest
      (fun g hg => hy g (List.mem_cons_of_mem f hg))
      (fun g hg => hk g (List.mem_cons_of_mem f hg))
    obtain ⟨key, hkey⟩ := Option.isSome_iff_exists.mp (hk f (List.mem_cons_self f rest))
    refine ⟨(f, key) :: res, ?_⟩
    simp only [addConfigFilesAux]
    rw [if_pos (hy f (List.mem_cons_self f rest)), hkey, hres]

/-- C2: at `NewStreamer` construction, the config-file name list starts
with every settings/manifest file (base and localized), in their original
relative order, followed by the remaining config files sorted ascending by
estimated size (a sorted permutation of them); the data-file name list is
a permutation of the data-file names sorted ascending by estimated size.
"Original" order is the iteration order in which the construction loop
visited the map entries, i.e. the input list order. -/
theorem newStreamer_planning_order (configFiles dataFiles : List (String × Nat))
    (chunkSize : Nat) :
    ((NewStreamer configFiles dataFiles chunkSize).configFilenames.take
        (((configFiles.map Prod.fst).filter (fun v => IsSettings v || IsManifest v)).length)
      = (configFiles.map Prod.fst).filter (fun v => IsSettings v || IsManifest v)) ∧
    ((NewStreamer configFiles dataFiles chunkSize).configFilenames.drop
        (((configFiles.map Prod.fst).filter (fun v => IsSettings v || IsManifest v)).length)).Sorted
      (fun x y => lookupSize (NewStreamer configFiles dataFiles chunkSize).sizes x
        ≤ lookupSize (NewStreamer configFiles dataFiles chunkSize).sizes y) ∧
    ((NewStreamer configFiles dataFiles chunkSize).configFilenames.drop
        (((configFiles.map Prod.fst).filter (fun v => IsSettings v || IsManifest v)).length)).Perm
      ((configFiles.map Prod.fst).filter (fun v => !(IsSettings v || IsManifest v))) ∧
    (NewStreamer configFiles dataFiles chunkSize).dataFilenames.Sorted
      (fun x y => lookupSize (NewStreamer configFiles dataFiles chunkSize).sizes x
        ≤ lookupSize (NewStreamer configFiles dataFiles chunkSize).sizes y) ∧
    (NewStreamer configFiles dataFiles chunkSize).dataFilenames.Perm
      (dataFiles.map Prod.fst) := by
  haveI : IsTotal String (fun x y =>
      lookupSize (NewStreamer configFiles dataFiles chunkSize).sizes x
        ≤ lookupSize (NewStreamer configFiles dataFiles chunkSize).sizes y) :=
    ⟨fun x y => Nat.le_total _ _⟩
  haveI : IsTrans String (fun x y =>
      lookupSize (NewStreamer configFiles dataFiles chunkSize).sizes x
        ≤ lookupSize (NewStreamer configFiles dataFiles chunkSize).sizes y) :=
    ⟨fun _ _ _ => Nat.le_trans⟩
  obtain ⟨h1, h2, h3⟩ := sortConfigFiles_spec (configFiles.map Prod.fst)
    (dataFiles.map (fun kv => (kv.1, base64Len kv.2)) ++ configFiles)
  refine ⟨h1, h2, h3, ?_, ?_⟩
  · exact List.sorted_insertionSort _ _
  · exact List.perm_insertionSort _ _

/-! ## The two-chunk round trip (C7) -/

/-- Counterexample for C7: five config files of estimated size 10 each
(all strictly under the budget 20, which equals the sum of the first two
planning-order sizes) stream as three chunks, not two — after two
successful `Next()` calls the streamer still has a pending file. -/
theorem five_small_files_make_three_chunks :
    (∀ f ∈ (NewStreamer [("manifest.yaml", 10), ("settings/settings.yaml", 10),
        ("custom/intents/a.yaml", 10), ("custom/intents/b.yaml", 10),
        ("custom/intents/c.yaml", 10)] [] 20).configFilenames,
      lookupSize (NewStreamer [("manifest.yaml", 10), ("settings/settings.yaml", 10),
        ("custom/intents/a.yaml", 10), ("custom/intents/b.yaml", 10),
        ("custom/intents/c.yaml", 10)] [] 20).sizes f < 20) ∧
    (lookupSize (NewStreamer [("manifest.yaml", 10), ("settings/settings.yaml", 10),
        ("custom/intents/a.yaml", 10), ("custom/intents/b.yaml", 10),
        ("custom/intents/c.yaml", 10)] [] 20).sizes
      ((NewStreamer [("manifest.yaml", 10), ("settings/settings.yaml", 10),
        ("custom/intents/a.yaml", 10), ("custom/intents/b.yaml", 10),
        ("custom/intents/c.yaml", 10)] [] 20).configFilenames.getD 0 "")
     + lookupSize (NewStreamer [("manifest.yaml", 10), ("settings/settings.yaml", 10),
        ("custom/intents/a.yaml", 10), ("custom/intents/b.yaml", 10),
        ("custom/intents/c.yaml", 10)] [] 20).sizes
      ((NewStreamer [("manifest.yaml", 10), ("settings/settings.yaml", 10),
        ("custom/intents/a.yaml", 10), ("custom/intents/b.yaml", 10),
        ("custom/intents/c.yaml", 10)] [] 20).configFilenames.getD 1 "") = 20) ∧
    ((NewStreamer [("manifest.yaml", 10), ("settings/settings.yaml", 10),
        ("custom/intents/a.yaml", 10), ("custom/intents/b.yaml", 10),
        ("custom/intents/c.yaml", 10)] [] 20).Next (fun _ => true) goBuiltinMime
      = .ok ({ files := some (.configFiles
          [("manifest.yaml", "manifest"), ("settings/settings.yaml", "settings")]) },
        ({ NewStreamer [("manifest.yaml", 10), ("settings/settings.yaml", 10),
          ("custom/intents/a.yaml", 10), ("custom/intents/b.yaml", 10),
          ("custom/intents/c.yaml", 10)] [] 20 with i := 2 }))) ∧
    (({ NewStreamer [("manifest.yaml", 10), ("settings/settings.yaml", 10),
        ("custom/intents/a.yaml", 10), ("custom/intents/b.yaml", 10),
        ("custom/intents/c.yaml", 10)] [] 20 with i := 2 } : SDKStreamer).Next
        (fun _ => true) goBuiltinMime
      = .ok ({ files := some (.configFiles
          [("custom/intents/a.yaml", "intent"), ("custom/intents/b.yaml", "intent")]) },
        ({ NewStreamer [("manifest.yaml", 10), ("settings/settings.yaml", 10),
          ("custom/intents/a.yaml", 10), ("custom/intents/b.yaml", 10),
          ("custom/intents/c.yaml", 10)] [] 20 with i := 4 }))) ∧
    (({ NewStreamer [("manifest.yaml", 10), ("settings/settings.yaml", 10),
        ("custom/intents/a.yaml", 10), ("custom/intents/b.yaml", 10),
        ("custom/intents/c.yaml", 10)] [] 20 with i := 4 } : SDKStreamer).HasNext = true) :=
  ⟨by decide, by decide, by decide, by decide, by decide⟩

/-- C7 (amended): for a config-only file set of at least three files with
distinct names, all of positive estimated size strictly under the budget,
whose sizes past the first two (in planning order) total at most the
budget, a streamer constructed with a budget equal to the sum of the first
two planning-order sizes emits exactly two chunks: the first carries
exactly those first two files, a second `Next()` succeeds, and afterwards
`HasNext()` is false. -/
theorem two_chunk_round_trip (configFiles : List (String × Nat)) (chunkSize : Nat)
    (yamlOk : String → Bool) (mimeByExt : String → String)
    (hnodup : (configFiles.map Prod.fst).Nodup)
    (hlen3 : 3 ≤ configFiles.length)
    (hyaml : ∀ f, yamlOk f = true)
    (hcfg : ∀ f ∈ (NewStreamer configFiles [] chunkSize).configFilenames,
      isConfigFile f = true)
    (hsize : ∀ f ∈ (NewStreamer configFiles [] chunkSize).configFilenames,
      0 < lookupSize (NewStreamer configFiles [] chunkSize).sizes f ∧
      lookupSize (NewStreamer configFiles [] chunkSize).sizes f < chunkSize)
    (hbudget : chunkSize
      = lookupSize (NewStreamer configFiles [] chunkSize).sizes
          ((NewStreamer configFiles [] chunkSize).configFilenames.getD 0 "")
        + lookupSize (NewStreamer configFiles [] chunkSize).sizes
          ((NewStreamer configFiles [] chunkSize).configFilenames.getD 1 ""))
    (hrem : (((NewStreamer configFiles [] chunkSize).configFilenames.drop 2).map
        (lookupSize (NewStreamer configFiles [] chunkSize).sizes)).sum ≤ chunkSize) :
    ∃ r1 s1 r2 s2,
      (NewStreamer configFiles [] chunkSize).Next yamlOk mimeByExt = .ok (r1, s1) ∧
      r1.fileNames.Perm
        [(NewStreamer configFiles [] chunkSize).configFilenames.getD 0 "",
         (NewStreamer configFiles [] chunkSize).configFilenames.getD 1 ""] ∧
      s1.HasNext = true ∧
      s1.Next yamlOk mimeByExt = .ok (r2, s2) ∧
      s2.HasNext = false := by
  have hB : (NewStreamer configFiles [] chunkSize).chunkSize = chunkSize := rfl
  have hi0 : (NewStreamer configFiles [] chunkSize).i = 0 := rfl
  have hj0 : (NewStreamer configFiles [] chunkSize).j = 0 := rfl
  have hcount : (NewStreamer configFiles [] chunkSize).filesCount = configFiles.length := by
    show (configFiles.map Prod.fst
        ++ (([] : List (String × Nat)).map Prod.fst)).dedup.length = _
    rw [List.map_nil, List.append_nil, List.dedup_eq_self.mpr hnodup, List.length_map]
  have hLlen : (NewStreamer configFiles [] chunkSize).configFilenames.length
      = configFiles.length := by
    have h2 : (sortConfigFiles (configFiles.map Prod.fst) configFiles).length
        = configFiles.length := by
      rw [(sortConfigFiles_perm (configFiles.map Prod.fst) configFiles).length_eq,
        List.length_map]
    exact h2
  have hlenL : 3 ≤ (NewStreamer configFiles [] chunkSize).configFilenames.length := by
    rw [hLlen]; exact hlen3
  obtain ⟨f1, f2, f3, L', hL⟩ : ∃ f1 f2 f3 L',
      (NewStreamer configFiles [] chunkSize).configFilenames = f1 :: f2 :: f3 :: L' := by
    rcases hx : (NewStreamer configFiles [] chunkSize).configFilenames with
      _ | ⟨f1, _ | ⟨f2, _ | ⟨f3, L'⟩⟩⟩
    · rw [hx] at hlenL; simp at hlenL
    · rw [hx] at hlenL; simp at hlenL
    · rw [hx] at hlenL; simp at hlenL
    · exact ⟨f1, f2, f3, L', rfl⟩
  have hm1 : f1 ∈ (NewStreamer configFiles [] chunkSize).configFilenames := by
    rw [hL]; exact List.mem_cons_self _ _
  have hm2 : f2 ∈ (NewStreamer configFiles [] chunkSize).configFilenames := by
    rw [hL]; exact List.mem_cons_of_mem _ (List.mem_cons_self _ _)
  obtain ⟨hf1pos, hf1lt⟩ := hsize f1 hm1
  obtain ⟨hf2pos, hf2lt⟩ := hsize f2 hm2
  have hbudget' : chunkSize
      = lookupSize (NewStreamer configFiles [] chunkSize).sizes f1
        + lookupSize (NewStreamer configFiles [] chunkSize).sizes f2 := by
    have h := hbudget
    rw [hL] at h
    simpa [List.getD_cons_zero, List.getD_cons_succ] using h
  -- the first planned chunk is exactly [f1, f2]
  have hchunk1 : (NewStreamer configFiles [] chunkSize).nextChunk
      (NewStreamer configFiles [] chunkSize).configFilenames
      (NewStreamer configFiles [] chunkSize).i = [f1, f2] := by
    show nextChunkAux (NewStreamer configFiles [] chunkSize).sizes
      (NewStreamer configFiles [] chunkSize).chunkSize
      ((NewStreamer configFiles [] chunkSize).configFilenames.drop
        (NewStreamer configFiles [] chunkSize).i) 0 = [f1, f2]
    rw [hi0, List.drop_zero, hL, hB]
    have c1 : (0:Nat) < chunkSize := by omega
    have c2 : ¬ (0 + lookupSize (NewStreamer configFiles [] chunkSize).sizes f1
        > chunkSize) := by omega
    have c3 : 0 + lookupSize (NewStreamer configFiles [] chunkSize).sizes f1
        < chunkSize := by omega
    have c4 : ¬ (0 + lookupSize (NewStreamer configFiles [] chunkSize).sizes f1
        + lookupSize (NewStreamer configFiles [] chunkSize).sizes f2
        > chunkSize) := by omega
    have c5 : ¬ (0 + lookupSize (NewStreamer configFiles [] chunkSize).sizes f1
        + lookupSize (NewStreamer configFiles [] chunkSize).sizes f2
        < chunkSize) := by omega
    simp only [nextChunkAux]
    rw [if_pos c1, if_neg c2, if_pos c3, if_neg c4, if_neg c5]
  -- payload of the first chunk
  have hkeys1 : ∀ f ∈ sortStrings [f1, f2], (configWireKey f).isSome = true := by
    intro f hf
    have hf' : f ∈ [f1, f2] := (List.perm_insertionSort _ _).subset hf
    rcases List.mem_cons.mp hf' with h | h
    · subst h; exact configWireKey_isSome_of_isConfigFile f (hcfg f hm1)
    · rcases List.mem_cons.mp h with h | h
      · subst h; exact configWireKey_isSome_of_isConfigFile f (hcfg f hm2)
      · cases h
  obtain ⟨res1, hres1⟩ := addConfigFilesAux_ok yamlOk (sortStrings [f1, f2])
    (fun f _ => hyaml f) hkeys1
  have hnext1 : (NewStreamer configFiles [] chunkSize).Next yamlOk mimeByExt
      = .ok ({ files := some (.configFiles res1) },
        ({ NewStreamer configFiles [] chunkSize with
          i := (NewStreamer configFiles [] chunkSize).i + 2 })) := by
    unfold SDKStreamer.Next
    rw [if_pos (by rw [hi0, hL]; simp)]
    unfold SDKStreamer.nextConfigFiles
    dsimp only
    rw [hchunk1]
    rw [if_neg (by simp)]
    have : addConfigFiles yamlOk [f1, f2] = .ok res1 := hres1
    rw [this]
    rfl
  have hs1next : ({ NewStreamer configFiles [] chunkSize with
      i := (NewStreamer configFiles [] chunkSize).i + 2 } : SDKStreamer).HasNext = true := by
    simp only [SDKStreamer.HasNext, decide_eq_true_eq]
    rw [hi0, hj0]
    show 0 + 2 + (NewStreamer configFiles [] chunkSize).j
      < (NewStreamer configFiles [] chunkSize).filesCount
    rw [hj0, hcount]
    omega
  -- the second planned chunk is everything that remains
  have hdropmem : ∀ f ∈ f3 :: L',
      f ∈ (NewStreamer configFiles [] chunkSize).configFilenames := by
    intro f hf
    rw [hL]
    exact List.mem_cons_of_mem _ (List.mem_cons_of_mem _ hf)
  have hchunk2 : ({ NewStreamer configFiles [] chunkSize with
      i := (NewStreamer configFiles [] chunkSize).i + 2 } : SDKStreamer).nextChunk
      (NewStreamer configFiles [] chunkSize).configFilenames
      ((NewStreamer configFiles [] chunkSize).i + 2) = f3 :: L' := by
    show nextChunkAux (NewStreamer configFiles [] chunkSize).sizes
      (NewStreamer configFiles [] chunkSize).chunkSize
      ((NewStreamer configFiles [] chunkSize).configFilenames.drop
        ((NewStreamer configFiles [] chunkSize).i + 2)) 0 = f3 :: L'
    rw [hi0, hL]
    show nextChunkAux _ _ (f3 :: L') 0 = f3 :: L'
    refine nextChunkAux_all _ _ (f3 :: L') 0
      (fun f hf => (hsize f (hdropmem f hf)).1) ?_
    have hrem' : ((f3 :: L').map
        (lookupSize (NewStreamer configFiles [] chunkSize).sizes)).sum ≤ chunkSize := by
      have := hrem
      rw [hL] at this
      simpa using this
    simpa [hB] using hrem'
  have hkeys2 : ∀ f ∈ sortStrings (f3 :: L'), (configWireKey f).isSome = true := by
    intro f hf
    have hf' : f ∈ f3 :: L' := (List.perm_insertionSort _ _).subset hf
    exact configWireKey_isSome_of_isConfigFile f (hcfg f (hdropmem f hf'))
  obtain ⟨res2, hres2⟩ := addConfigFilesAux_ok yamlOk (sortStrings (f3 :: L'))
    (fun f _ => hyaml f) hkeys2
  have hnext2 : ({ NewStreamer configFiles [] chunkSize with
      i := (NewStreamer configFiles [] chunkSize).i + 2 } : SDKStreamer).Next yamlOk mimeByExt
      = .ok ({ files := some (.configFiles res2) },
        ({ NewStreamer configFiles [] chunkSize with
          i := (NewStreamer configFiles [] chunkSize).i + 2 + (f3 :: L').length })) := by
    have hlt2 : (NewStreamer configFiles [] chunkSize).i + 2
        < (NewStreamer configFiles [] chunkSize).configFilenames.length := by
      rw [hi0, hL]
      simp
    unfold SDKStreamer.Next
    rw [if_pos hlt2]
    unfold SDKStreamer.nextConfigFiles
    dsimp only
    rw [hchunk2]
    rw [if_neg (by simp)]
    have : addConfigFiles yamlOk (f3 :: L') = .ok res2 := hres2
    rw [this]
  have hs2next : ({ NewStreamer configFiles [] chunkSize with
      i := (NewStreamer configFiles [] chunkSize).i + 2 + (f3 :: L').length }
        : SDKStreamer).HasNext = false := by
    simp only [SDKStreamer.HasNext, decide_eq_false_iff_not]
    show ¬ ((NewStreamer configFiles [] chunkSize).i + 2 + (f3 :: L').length
      + (NewStreamer configFiles [] chunkSize).j
      < (NewStreamer configFiles [] chunkSize).filesCount)
    rw [hi0, hj0, hcount]
    have : (NewStreamer configFiles [] chunkSize).configFilenames.length
        = 3 + L'.length := by
      rw [hL]; simp; omega
    rw [hLlen] at this
    simp only [List.length_cons]
    omega
  refine ⟨{ files := some (.configFiles res1) },
    ({ NewStreamer configFiles [] chunkSize with
      i := (NewStreamer configFiles [] chunkSize).i + 2 }),
    { files := some (.configFiles res2) },
    ({ NewStreamer configFiles [] chunkSize with
      i := (NewStreamer configFiles [] chunkSize).i + 2 + (f3 :: L').length }),
    hnext1, ?_, hs1next, hnext2, hs2next⟩
  show ((Request.mk (some (.configFiles res1))).fileNames).Perm _
  have hnames : res1.map Prod.fst = sortStrings [f1, f2] :=
    addConfigFilesAux_map_fst yamlOk _ _ hres1
  show (res1.map Prod.fst).Perm _
  rw [hnames, hL]
  simp only [List.getD_cons_zero, List.getD_cons_succ]
  exact (List.perm_insertionSort _ _)

/-- Witness for the amended C7: three 10-byte config files, budget 20. -/
theorem two_chunk_round_trip_witness :
    (([("manifest.yaml", 10), ("settings/settings.yaml", 10),
        ("custom/intents/a.yaml", 10)] : List (String × Nat)).map Prod.fst).Nodup ∧
    (∃ r1 s1 r2 s2,
      (NewStreamer [("manifest.yaml", 10), ("settings/settings.yaml", 10),
        ("custom/intents/a.yaml", 10)] [] 20).Next (fun _ => true) goBuiltinMime
        = .ok (r1, s1) ∧
      r1.fileNames.Perm
        [(NewStreamer [("manifest.yaml", 10), ("settings/settings.yaml", 10),
          ("custom/intents/a.yaml", 10)] [] 20).configFilenames.getD 0 "",
         (NewStreamer [("manifest.yaml", 10), ("settings/settings.yaml", 10),
          ("custom/intents/a.yaml", 10)] [] 20).configFilenames.getD 1 ""] ∧
      s1.HasNext = true ∧
      s1.Next (fun _ => true) goBuiltinMime = .ok (r2, s2) ∧
      s2.HasNext = false) :=
  ⟨by decide,
    two_chunk_round_trip
      [("manifest.yaml", 10), ("settings/settings.yaml", 10),
        ("custom/intents/a.yaml", 10)] 20 (fun _ => true) goBuiltinMime
      (by decide) (by decide) (fun _ => rfl) (by decide) (by decide)
      (by decide) (by decide)⟩

end Gactions
